import Mathlib

/-!
Shallow embedding of the `SlepcEigenSolver` layer of `linalg/slepc.cpp`:
the canonical-operator adapter, the configuration setters, the
customize-then-solve driver, the eigenpair retrieval protocol, and the
lifecycle (construction / operator re-registration / destruction).

The SLEPc engine itself (`EPS...` calls) is out of scope of the layer; it
is modelled as explicit engine-side state plus a deterministic `compute`
function supplied to `Solve` standing for the opaque iterative algorithm.
Heap resources (the EPS context, synthesized `PetscParMatrix` handles and
lazily-created `PetscParVector` views) are tracked in an allocation
ledger so that leak / double-free properties are statable.
-/

set_option autoImplicit false

namespace MfemSlepc

/-- Dynamic kind of a distributed operator passed to `SetOperator(s)`:
a `PetscParMatrix` (the canonical type), a `HypreParMatrix`, or any
other `Operator`. `id` identifies the object, `n` its global size. -/
inductive OperKind
  | petscMat (id : Nat) (n : Nat)
  | hypreMat (id : Nat) (n : Nat)
  | genericOp (id : Nat) (n : Nat)
deriving DecidableEq, Repr

/-- PETSc matrix format chosen by the `_wrap` flag
(`Operator::PETSC_MATSHELL` vs `Operator::PETSC_MATAIJ`). -/
inductive MatType
  | matShell
  | matAij
deriving DecidableEq, Repr

def matTypeOfWrap (w : Bool) : MatType :=
  if w then MatType.matShell else MatType.matAij

/-- Kind of a heap resource in the allocation ledger. -/
inductive ResKind
  | epsCtx
  | matHandle
  | vecView
deriving DecidableEq, Repr

def ResKind.isMat : ResKind → Bool
  | ResKind.matHandle => true
  | _ => false

/-- Allocation ledger: `nextId` is the next fresh resource id, `allocs`
records every allocation ever made (id and kind), `frees` every release. -/
structure Mem where
  nextId : Nat
  allocs : List (Nat × ResKind)
  frees : List Nat
deriving DecidableEq, Repr

def Mem.alloc (m : Mem) (k : ResKind) : Mem :=
  { m with nextId := m.nextId + 1, allocs := (m.nextId, k) :: m.allocs }

def Mem.free (m : Mem) (i : Nat) : Mem :=
  { m with frees := i :: m.frees }

/-- A resource id is live when it was allocated and never freed. -/
def Mem.live (m : Mem) (i : Nat) : Bool :=
  (m.allocs.any fun p => p.1 == i) && !(m.frees.any fun j => j == i)

/-- Number of `PetscParMatrix` handles the adapter has synthesized. -/
def Mem.matAllocCount (m : Mem) : Nat :=
  (m.allocs.filter fun p => p.2.isMat).length

/-- Number of release operations performed on synthesized matrix handles
(a double free of the same handle is counted twice). -/
def Mem.matFreeCount (m : Mem) : Nat :=
  (m.frees.filter fun i => m.allocs.any fun p => p.1 == i && p.2.isMat).length

def initMem : Mem :=
  { nextId := 0, allocs := [], frees := [] }

/-- The canonical operator handle handed to the engine: either the input
`PetscParMatrix` reused as is (borrowed), or a newly synthesized
`PetscParMatrix` (`rid` is its ledger id, `src` the operator it wraps,
`ty` the format selected by `_wrap`). -/
inductive Handle
  | borrowed (id : Nat) (n : Nat)
  | synthesized (rid : Nat) (src : OperKind) (ty : MatType)
deriving DecidableEq, Repr

/-- A lazily-created `PetscParVector` eigenvector view: its ledger id,
the registered primary operator its distributed layout derives from
(`new PetscParVector(pA, true, false)`), and whether its backing array is
currently a caller buffer (`PlaceArray` without a matching `ResetArray`). -/
structure View where
  rid : Nat
  srcA : Handle
  bound : Bool
deriving DecidableEq, Repr

/-- One converged eigenpair as reported by the engine: eigenvalue real
and imaginary parts, eigenvector real and imaginary local parts. -/
structure EigPair where
  lr : Float
  li : Float
  xr : List Float
  xc : List Float

/-- SLEPc `EPSWhich` values used by `SetWhichEigenpairs`. -/
inductive EPSWhich
  | epsLargestMagnitude
  | epsSmallestMagnitude
  | epsLargestReal
  | epsSmallestReal
  | epsLargestImaginary
  | epsSmallestImaginary
  | epsTargetMagnitude
  | epsTargetReal
deriving DecidableEq, Repr

/-- SLEPc spectral-transformation types (`STSHIFT` / `STSINVERT`). -/
inductive STType
  | stshift
  | stsinvert
deriving DecidableEq, Repr

/-- Engine-side (EPS context) state touched by this layer. -/
structure EngineState where
  opA : Option Handle
  opB : Option Handle
  engTol : Float
  engMaxIts : Int
  nev : Option Int
  which : Option EPSWhich
  st : Option STType
  target : Option Float
  fromOptionsCount : Nat
  solveCount : Nat
  results : List EigPair

/-- Sentinel `PETSC_DEFAULT` for real-valued settings. -/
def petscDefaultReal : Float := -2.0

/-- Sentinel `PETSC_DEFAULT` for integer-valued settings. -/
def petscDefaultInt : Int := -2

/-- State of one `SlepcEigenSolver` object together with the engine state
and the allocation ledger. -/
structure SlepcEigenSolver where
  clcustom : Bool
  tol : Float
  maxIts : Int
  wrap : Bool
  VR : Option View
  VC : Option View
  operatorset : Bool
  epsRid : Nat
  eng : EngineState
  mem : Mem

/-- Constructor `SlepcEigenSolver(comm, prefix, wrap)` (slepc.cpp:71-84):
initializes the flags and sentinels and creates the EPS context. -/
def SlepcEigenSolver.new (w : Bool) : SlepcEigenSolver :=
  { clcustom := false
    tol := petscDefaultReal
    maxIts := petscDefaultInt
    wrap := w
    VR := none
    VC := none
    operatorset := false
    epsRid := initMem.nextId
    eng := { opA := none, opB := none, engTol := petscDefaultReal,
             engMaxIts := petscDefaultInt, nev := none, which := none,
             st := none, target := none, fromOptionsCount := 0,
             solveCount := 0, results := [] }
    mem := initMem.alloc ResKind.epsCtx }

/-- Destructor (slepc.cpp:86-91): obtains the communicator and destroys
the EPS context. Nothing else is released. -/
def destruct (s : SlepcEigenSolver) : SlepcEigenSolver :=
  { s with mem := s.mem.free s.epsRid }

/-- The `dynamic_cast<const PetscParMatrix *>` test. -/
def dynCastPetsc : OperKind → Option (Nat × Nat)
  | OperKind.petscMat i n => some (i, n)
  | _ => none

/-- The `dynamic_cast<const HypreParMatrix *>` test. -/
def dynCastHypre : OperKind → Option (Nat × Nat)
  | OperKind.hypreMat i n => some (i, n)
  | _ => none

/-- The `dynamic_cast<const Operator *>` of a `const Operator &`: a cast
to the static type of the reference, which always succeeds. -/
def dynCastOper (op : OperKind) : Option OperKind := some op

/-- The per-argument adapter branch of `SetOperator` (slepc.cpp:96-118)
and the two identical branches of `SetOperators` (slepc.cpp:134-176).
Returns the `pA` pointer (`none` models the null pointer that would trip
`MFEM_VERIFY(pA, ...)`), the `delete_pA` ownership flag, and the ledger
after any `new PetscParMatrix(...)`. -/
def adaptToPetsc (w : Bool) (op : OperKind) (m : Mem) :
    Option Handle × Bool × Mem :=
  match dynCastPetsc op with
  | some pi => (some (Handle.borrowed pi.1 pi.2), false, m)
  | none =>
    match dynCastHypre op with
    | some _ =>
      (some (Handle.synthesized m.nextId op (matTypeOfWrap w)), true,
       m.alloc ResKind.matHandle)
    | none =>
      match dynCastOper op with
      | some o =>
        (some (Handle.synthesized m.nextId o (matTypeOfWrap w)), true,
         m.alloc ResKind.matHandle)
      | none => (none, false, m)

/-- The `if (operatorset) { delete VR; delete VC; VR = VC = NULL; }`
block (slepc.cpp:120-125 and 178-183). -/
def clearStaleViews (s : SlepcEigenSolver) : SlepcEigenSolver :=
  if s.operatorset then
    let m1 := match s.VR with
              | some v => s.mem.free v.rid
              | none => s.mem
    let m2 := match s.VC with
              | some v => m1.free v.rid
              | none => m1
    { s with VR := none, VC := none, mem := m2 }
  else s

/-- `SetOperator` (slepc.cpp:94-130). The final
`if (delete_pA) {delete_pA;}` statement evaluates the boolean flag and
performs no release, exactly as in the source. -/
def SetOperator (op : OperKind) (s : SlepcEigenSolver) :
    Option SlepcEigenSolver :=
  match adaptToPetsc s.wrap op s.mem with
  | (none, _, _) => none
  | (some pA, dpa, m) =>
    let s1 := clearStaleViews { s with mem := m }
    let s2 := { s1 with
                eng := { s1.eng with opA := some pA, opB := none }
                operatorset := true }
    let _ := dpa
    some s2

/-- `SetOperators` (slepc.cpp:132-189). Both trailing
`if (delete_p?) {delete_p?;}` statements are no-ops, as in the source. -/
def SetOperators (op opB : OperKind) (s : SlepcEigenSolver) :
    Option SlepcEigenSolver :=
  match adaptToPetsc s.wrap op s.mem with
  | (none, _, _) => none
  | (some pA, dpa, m1) =>
    match adaptToPetsc s.wrap opB m1 with
    | (none, _, _) => none
    | (some pB, dpb, m2) =>
      let s1 := clearStaleViews { s with mem := m2 }
      let s2 := { s1 with
                  eng := { s1.eng with opA := some pA, opB := some pB }
                  operatorset := true }
      let _ := dpa
      let _ := dpb
      some s2

/-- `SetTol` (slepc.cpp:191-195): stores `_tol` and immediately pushes
`EPSSetTolerances(eps, _tol, _max_its)`. -/
def SetTol (t : Float) (s : SlepcEigenSolver) : SlepcEigenSolver :=
  let s1 := { s with tol := t }
  { s1 with eng := { s1.eng with engTol := s1.tol, engMaxIts := s1.maxIts } }

/-- `SetMaxIter` (slepc.cpp:197-201): stores `_max_its` and immediately
pushes `EPSSetTolerances(eps, _tol, _max_its)`. -/
def SetMaxIter (n : Int) (s : SlepcEigenSolver) : SlepcEigenSolver :=
  let s1 := { s with maxIts := n }
  { s1 with eng := { s1.eng with engTol := s1.tol, engMaxIts := s1.maxIts } }

/-- `SetNumModes` (slepc.cpp:203-207): `EPSSetDimensions`. -/
def SetNumModes (n : Int) (s : SlepcEigenSolver) : SlepcEigenSolver :=
  { s with eng := { s.eng with nev := some n } }

/-- `SetTarget` (slepc.cpp:317-320): `EPSSetTarget`. -/
def SetTarget (t : Float) (s : SlepcEigenSolver) : SlepcEigenSolver :=
  { s with eng := { s.eng with target := some t } }

/-- `Customize` (slepc.cpp:216-224): when called with `false` the latch
is forced true before the merge test; the merge `EPSSetFromOptions` runs
only when the latch is still false; the latch is left true. -/
def Customize (b : Bool) (s : SlepcEigenSolver) : SlepcEigenSolver :=
  let s1 := if !b then { s with clcustom := true } else s
  let s2 := if !s1.clcustom then
              { s1 with eng := { s1.eng with
                  fromOptionsCount := s1.eng.fromOptionsCount + 1 } }
            else s1
  { s2 with clcustom := true }

/-- `Solve` (slepc.cpp:209-214): `Customize()` with its default argument
`true`, then the collective `EPSSolve`, modelled as a deterministic
`compute` function of the engine state. -/
def Solve (compute : EngineState → List EigPair) (s : SlepcEigenSolver) :
    SlepcEigenSolver :=
  let s1 := Customize true s
  { s1 with eng := { s1.eng with
      solveCount := s1.eng.solveCount + 1, results := compute s1.eng } }

/-- `GetNumConverged` (slepc.cpp:275-280): `EPSGetConverged`. -/
def GetNumConverged (s : SlepcEigenSolver) : Nat :=
  s.eng.results.length

/-- `GetEigenvalue(i, lr)` (slepc.cpp:226-229); an out-of-range index is
an engine error, which aborts (`none`). -/
def GetEigenvalue1 (i : Nat) (s : SlepcEigenSolver) : Option Float :=
  (s.eng.results[i]?).map fun p => p.lr

/-- `GetEigenvalue(i, lr, lc)` (slepc.cpp:231-235). -/
def GetEigenvalue2 (i : Nat) (s : SlepcEigenSolver) :
    Option (Float × Float) :=
  (s.eng.results[i]?).map fun p => (p.lr, p.li)

/-- Writing the engine's local eigenvector through a placed array of the
caller: the write covers the buffer when the sizes agree. -/
def placeWrite (dst src : List Float) : List Float :=
  src.take dst.length ++ dst.drop src.length

/-- The lazy-allocation block of `GetEigenvector(i, vr)`
(slepc.cpp:239-244): when `VR` is absent, `EPSGetOperators` fetches the
registered primary operator and the view is created from its layout. -/
def ensureVR (s : SlepcEigenSolver) : Option (View × SlepcEigenSolver) :=
  match s.VR with
  | some v => some (v, s)
  | none =>
    match s.eng.opA with
    | none => none
    | some pA =>
      let v : View := { rid := s.mem.nextId, srcA := pA, bound := false }
      some (v, { s with VR := some v, mem := s.mem.alloc ResKind.vecView })

/-- `GetEigenvector(i, vr)` (slepc.cpp:237-249): lazily create `VR`,
`PlaceArray` the caller buffer, fetch through the engine, `ResetArray`.
Returns the new buffer contents and the new state. -/
def GetEigenvector (i : Nat) (vr : List Float) (s : SlepcEigenSolver) :
    Option (List Float × SlepcEigenSolver) :=
  match ensureVR s with
  | none => none
  | some (v, s1) =>
    let s2 := { s1 with VR := some { v with bound := true } }
    match s2.eng.results[i]? with
    | none => none
    | some p =>
      let s3 := { s2 with VR := some { v with bound := false } }
      some (placeWrite vr p.xr, s3)

/-- The lazy-allocation block of `GetEigenvector(i, vr, vc)`
(slepc.cpp:254-267). -/
def ensureVRVC (s : SlepcEigenSolver) :
    Option (View × View × SlepcEigenSolver) :=
  match s.VR, s.VC with
  | some vr, some vc => some (vr, vc, s)
  | vro, vco =>
    match s.eng.opA with
    | none => none
    | some pA =>
      let pr : View × SlepcEigenSolver :=
        match vro with
        | some v => (v, s)
        | none =>
          let v : View := { rid := s.mem.nextId, srcA := pA, bound := false }
          (v, { s with VR := some v, mem := s.mem.alloc ResKind.vecView })
      let pc : View × SlepcEigenSolver :=
        match vco with
        | some v => (v, pr.2)
        | none =>
          let v : View := { rid := pr.2.mem.nextId, srcA := pA, bound := false }
          (v, { pr.2 with VC := some v, mem := pr.2.mem.alloc ResKind.vecView })
      some (pr.1, pc.1, pc.2)

/-- `GetEigenvector(i, vr, vc)` (slepc.cpp:251-273). -/
def GetEigenvectorPair (i : Nat) (vr vc : List Float)
    (s : SlepcEigenSolver) :
    Option ((List Float × List Float) × SlepcEigenSolver) :=
  match ensureVRVC s with
  | none => none
  | some (v1, v2, s1) =>
    let s2 := { s1 with VR := some { v1 with bound := true }
                        VC := some { v2 with bound := true } }
    match s2.eng.results[i]? with
    | none => none
    | some p =>
      let s3 := { s2 with VR := some { v1 with bound := false }
                          VC := some { v2 with bound := false } }
      some ((placeWrite vr p.xr, placeWrite vc p.xc), s3)

/-- The `SlepcEigenSolver::Which` argument of `SetWhichEigenpairs`. -/
inductive Which
  | LARGEST_MAGNITUDE
  | SMALLEST_MAGNITUDE
  | LARGEST_REAL
  | SMALLEST_REAL
  | LARGEST_IMAGINARY
  | SMALLEST_IMAGINARY
  | TARGET_MAGNITUDE
  | TARGET_REAL
deriving DecidableEq, Repr

/-- The runtime value of the enum parameter: one of the declared
enumerators, or an out-of-enumeration bit pattern (obtainable in C++ by
casting), which falls to the `default` branch of the switch. -/
inductive WhichArg
  | enumVal (w : Which)
  | outOfEnum (bits : Int)
deriving DecidableEq, Repr

/-- `SetWhichEigenpairs` (slepc.cpp:283-315): each enumerator maps to
the corresponding `EPSWhich`; the `default` branch is
`MFEM_ABORT("Which eigenpair not implemented!")`, modelled as `none`. -/
def SetWhichEigenpairs (w : WhichArg) (s : SlepcEigenSolver) :
    Option SlepcEigenSolver :=
  match w with
  | WhichArg.enumVal Which.LARGEST_MAGNITUDE =>
    some { s with eng := { s.eng with which := some EPSWhich.epsLargestMagnitude } }
  | WhichArg.enumVal Which.SMALLEST_MAGNITUDE =>
    some { s with eng := { s.eng with which := some EPSWhich.epsSmallestMagnitude } }
  | WhichArg.enumVal Which.LARGEST_REAL =>
    some { s with eng := { s.eng with which := some EPSWhich.epsLargestReal } }
  | WhichArg.enumVal Which.SMALLEST_REAL =>
    some { s with eng := { s.eng with which := some EPSWhich.epsSmallestReal } }
  | WhichArg.enumVal Which.LARGEST_IMAGINARY =>
    some { s with eng := { s.eng with which := some EPSWhich.epsLargestImaginary } }
  | WhichArg.enumVal Which.SMALLEST_IMAGINARY =>
    some { s with eng := { s.eng with which := some EPSWhich.epsSmallestImaginary } }
  | WhichArg.enumVal Which.TARGET_MAGNITUDE =>
    some { s with eng := { s.eng with which := some EPSWhich.epsTargetMagnitude } }
  | WhichArg.enumVal Which.TARGET_REAL =>
    some { s with eng := { s.eng with which := some EPSWhich.epsTargetReal } }
  | WhichArg.outOfEnum _ => none

/-- The `SlepcEigenSolver::SpectralTransformation` argument. -/
inductive SpectralTransformation
  | SHIFT
  | SHIFT_INVERT
deriving DecidableEq, Repr

/-- Runtime value of the spectral-transformation enum parameter. -/
inductive STArg
  | enumVal (t : SpectralTransformation)
  | outOfEnum (bits : Int)
deriving DecidableEq, Repr

/-- `SetSpectralTransformation` (slepc.cpp:322-339): `SHIFT` and
`SHIFT_INVERT` map to `STSHIFT` / `STSINVERT`; the `default` branch is
`MFEM_ABORT("Spectral transformation not implemented!")`. -/
def SetSpectralTransformation (t : STArg) (s : SlepcEigenSolver) :
    Option SlepcEigenSolver :=
  match t with
  | STArg.enumVal SpectralTransformation.SHIFT =>
    some { s with eng := { s.eng with st := some STType.stshift } }
  | STArg.enumVal SpectralTransformation.SHIFT_INVERT =>
    some { s with eng := { s.eng with st := some STType.stsinvert } }
  | STArg.outOfEnum _ => none

/-- One public operation of the solver, for reasoning over call
sequences. -/
inductive Op
  | setOp (a : OperKind)
  | setOps (a b : OperKind)
  | setTol (x : Float)
  | setMaxIter (n : Int)
  | setNumModes (n : Int)
  | setWhich (w : WhichArg)
  | setTarget (x : Float)
  | setST (t : STArg)
  | customize (b : Bool)
  | solve
  | getEigval (i : Nat)
  | getEigvalPair (i : Nat)
  | getEigvec (i : Nat) (buf : List Float)
  | getEigvecPair (i : Nat) (bufR bufC : List Float)
  | getNumConv

/-- Effect of one operation on the solver state; `none` is a fatal abort. -/
def step (compute : EngineState → List EigPair) :
    Op → SlepcEigenSolver → Option SlepcEigenSolver
  | Op.setOp a, s => SetOperator a s
  | Op.setOps a b, s => SetOperators a b s
  | Op.setTol x, s => some (SetTol x s)
  | Op.setMaxIter n, s => some (SetMaxIter n s)
  | Op.setNumModes n, s => some (SetNumModes n s)
  | Op.setWhich w, s => SetWhichEigenpairs w s
  | Op.setTarget x, s => some (SetTarget x s)
  | Op.setST t, s => SetSpectralTransformation t s
  | Op.customize b, s => some (Customize b s)
  | Op.solve, s => some (Solve compute s)
  | Op.getEigval i, s => (GetEigenvalue1 i s).map fun _ => s
  | Op.getEigvalPair i, s => (GetEigenvalue2 i s).map fun _ => s
  | Op.getEigvec i buf, s => (GetEigenvector i buf s).map fun r => r.2
  | Op.getEigvecPair i br bc, s =>
    (GetEigenvectorPair i br bc s).map fun r => r.2
  | Op.getNumConv, s => some s

/-- Run a sequence of operations. -/
def run (compute : EngineState → List EigPair) :
    List Op → SlepcEigenSolver → Option SlepcEigenSolver
  | [], s => some s
  | o :: os, s =>
    match step compute o s with
    | none => none
    | some s1 => run compute os s1

/-! ### Frame lemmas for the individual operations -/

lemma clearStaleViews_clcustom (s : SlepcEigenSolver) :
    (clearStaleViews s).clcustom = s.clcustom := by
  unfold clearStaleViews; split <;> rfl

lemma clearStaleViews_eng (s : SlepcEigenSolver) :
    (clearStaleViews s).eng = s.eng := by
  unfold clearStaleViews; split <;> rfl

lemma clearStaleViews_operatorset (s : SlepcEigenSolver) :
    (clearStaleViews s).operatorset = s.operatorset := by
  unfold clearStaleViews; split <;> rfl

lemma clearStaleViews_VR (s : SlepcEigenSolver) :
    (clearStaleViews s).VR = if s.operatorset then none else s.VR := by
  unfold clearStaleViews; split <;> simp_all

lemma clearStaleViews_VC (s : SlepcEigenSolver) :
    (clearStaleViews s).VC = if s.operatorset then none else s.VC := by
  unfold clearStaleViews; split <;> simp_all

lemma clearStaleViews_allocs (s : SlepcEigenSolver) :
    (clearStaleViews s).mem.allocs = s.mem.allocs := by
  unfold clearStaleViews
  split
  · cases s.VR <;> cases s.VC <;> rfl
  · rfl

lemma clearStaleViews_mem_of_no_views (s : SlepcEigenSolver)
    (h1 : s.VR = none) (h2 : s.VC = none) :
    (clearStaleViews s).mem = s.mem := by
  unfold clearStaleViews
  split <;> simp [h1, h2]

/-- Shape of a `SetOperator` call: the adapter always yields a handle and
the result is the cleared state with the new operator registered. -/
lemma SetOperator_eq_some (op : OperKind) (s : SlepcEigenSolver) :
    ∃ pA dpa m, adaptToPetsc s.wrap op s.mem = (some pA, dpa, m)
      ∧ SetOperator op s =
          some { clearStaleViews { s with mem := m } with
                 eng := { (clearStaleViews { s with mem := m }).eng with
                          opA := some pA, opB := none }
                 operatorset := true } := by
  cases op <;> exact ⟨_, _, _, rfl, rfl⟩

/-- Shape of a `SetOperators` call. -/
lemma SetOperators_eq_some (op opB : OperKind) (s : SlepcEigenSolver) :
    ∃ pA pB dpa dpb m1 m2,
      adaptToPetsc s.wrap op s.mem = (some pA, dpa, m1)
      ∧ adaptToPetsc s.wrap opB m1 = (some pB, dpb, m2)
      ∧ SetOperators op opB s =
          some { clearStaleViews { s with mem := m2 } with
                 eng := { (clearStaleViews { s with mem := m2 }).eng with
                          opA := some pA, opB := some pB }
                 operatorset := true } := by
  cases op <;> cases opB <;> exact ⟨_, _, _, _, _, _, rfl, rfl, rfl⟩

lemma SetOperator_state {op : OperKind} {s r : SlepcEigenSolver}
    (h : SetOperator op s = some r) :
    r.clcustom = s.clcustom
    ∧ r.eng.fromOptionsCount = s.eng.fromOptionsCount
    ∧ r.operatorset = true
    ∧ (∃ pA, r.eng.opA = some pA)
    ∧ r.VR = (if s.operatorset then none else s.VR)
    ∧ r.VC = (if s.operatorset then none else s.VC) := by
  obtain ⟨pA, dpa, m, -, heq⟩ := SetOperator_eq_some op s
  rw [heq] at h
  cases h
  refine ⟨?_, ?_, rfl, ⟨pA, rfl⟩, ?_, ?_⟩
  · exact clearStaleViews_clcustom _
  · rw [clearStaleViews_eng]
  · exact clearStaleViews_VR _
  · exact clearStaleViews_VC _

lemma SetOperators_state {op opB : OperKind} {s r : SlepcEigenSolver}
    (h : SetOperators op opB s = some r) :
    r.clcustom = s.clcustom
    ∧ r.eng.fromOptionsCount = s.eng.fromOptionsCount
    ∧ r.operatorset = true
    ∧ (∃ pA, r.eng.opA = some pA)
    ∧ r.VR = (if s.operatorset then none else s.VR)
    ∧ r.VC = (if s.operatorset then none else s.VC) := by
  obtain ⟨pA, pB, dpa, dpb, m1, m2, -, -, heq⟩ := SetOperators_eq_some op opB s
  rw [heq] at h
  cases h
  refine ⟨?_, ?_, rfl, ⟨pA, rfl⟩, ?_, ?_⟩
  · exact clearStaleViews_clcustom _
  · rw [clearStaleViews_eng]
  · exact clearStaleViews_VR _
  · exact clearStaleViews_VC _

lemma Customize_clcustom (b : Bool) (s : SlepcEigenSolver) :
    (Customize b s).clcustom = true := rfl

lemma Customize_count (b : Bool) (s : SlepcEigenSolver) :
    (Customize b s).eng.fromOptionsCount =
      if b && !s.clcustom then s.eng.fromOptionsCount + 1
      else s.eng.fromOptionsCount := by
  cases b <;> cases hc : s.clcustom <;> simp [Customize, hc]

lemma Customize_frame (b : Bool) (s : SlepcEigenSolver) :
    (Customize b s).VR = s.VR ∧ (Customize b s).VC = s.VC
    ∧ (Customize b s).operatorset = s.operatorset
    ∧ (Customize b s).eng.opA = s.eng.opA
    ∧ (Customize b s).eng.results = s.eng.results
    ∧ (Customize b s).mem = s.mem := by
  cases b <;> cases hc : s.clcustom <;> simp [Customize, hc]

lemma Solve_clcustom (c : EngineState → List EigPair) (s : SlepcEigenSolver) :
    (Solve c s).clcustom = true := rfl

lemma Solve_count (c : EngineState → List EigPair) (s : SlepcEigenSolver) :
    (Solve c s).eng.fromOptionsCount =
      if s.clcustom then s.eng.fromOptionsCount
      else s.eng.fromOptionsCount + 1 := by
  cases hc : s.clcustom <;> simp [Solve, Customize, hc]

lemma Solve_frame (c : EngineState → List EigPair) (s : SlepcEigenSolver) :
    (Solve c s).VR = s.VR ∧ (Solve c s).VC = s.VC
    ∧ (Solve c s).operatorset = s.operatorset
    ∧ (Solve c s).eng.opA = s.eng.opA
    ∧ (Solve c s).mem = s.mem := by
  cases hc : s.clcustom <;> simp [Solve, Customize, hc]

lemma placeWrite_eq {dst src : List Float} (h : dst.length = src.length) :
    placeWrite dst src = src := by
  unfold placeWrite
  rw [h, List.take_length, ← h, List.drop_length, List.append_nil]

/-- Full description of a successful `GetEigenvector(i, vr)` call: the
engine state is untouched, the caller receives the engine's eigenvector
written through the placed array, and the view is left detached, with a
layout coming either from the pre-existing view or from the registered
primary operator. -/
lemma GetEigenvector_spec {i : Nat} {vr : List Float}
    {s : SlepcEigenSolver} {o : List Float} {r : SlepcEigenSolver}
    (h : GetEigenvector i vr s = some (o, r)) :
    r.clcustom = s.clcustom ∧ r.eng = s.eng ∧ r.operatorset = s.operatorset
    ∧ r.VC = s.VC
    ∧ (∃ p, s.eng.results[i]? = some p ∧ o = placeWrite vr p.xr)
    ∧ (∃ v1, r.VR = some v1 ∧ v1.bound = false
        ∧ ((∃ v, s.VR = some v ∧ v1.srcA = v.srcA)
           ∨ s.eng.opA = some v1.srcA)) := by
  cases hVR : s.VR with
  | some v =>
    simp only [GetEigenvector, ensureVR, hVR] at h
    cases hres : s.eng.results[i]? with
    | none => rw [hres] at h; cases h
    | some p =>
      rw [hres] at h
      obtain ⟨rfl, rfl⟩ := Prod.mk.injEq .. ▸ Option.some.inj h
      exact ⟨rfl, rfl, rfl, rfl, ⟨p, rfl, rfl⟩,
             ⟨{ v with bound := false }, rfl, rfl, Or.inl ⟨v, rfl, rfl⟩⟩⟩
  | none =>
    cases hopA : s.eng.opA with
    | none =>
      simp only [GetEigenvector, ensureVR, hVR, hopA] at h
      exact Option.noConfusion h
    | some pA =>
      simp only [GetEigenvector, ensureVR, hVR, hopA] at h
      cases hres : s.eng.results[i]? with
      | none => rw [hres] at h; cases h
      | some p =>
        rw [hres] at h
        obtain ⟨rfl, rfl⟩ := Prod.mk.injEq .. ▸ Option.some.inj h
        exact ⟨rfl, rfl, rfl, rfl, ⟨p, rfl, rfl⟩,
               ⟨_, rfl, rfl, Or.inr rfl⟩⟩

lemma GetEigenvector_isSome {i : Nat} {vr : List Float}
    {s : SlepcEigenSolver}
    (hop : s.VR ≠ none ∨ (∃ pA, s.eng.opA = some pA))
    (hres : ∃ p, s.eng.results[i]? = some p) :
    (GetEigenvector i vr s).isSome = true := by
  obtain ⟨p, hp⟩ := hres
  cases hVR : s.VR with
  | some v => simp [GetEigenvector, ensureVR, hVR, hp]
  | none =>
    rcases hop with hne | ⟨pA, hpA⟩
    · exact absurd hVR hne
    · simp [GetEigenvector, ensureVR, hVR, hpA, hp]

/-- Analogue of `GetEigenvector_spec` for the two-buffer overload. -/
lemma GetEigenvectorPair_spec {i : Nat} {br bc : List Float}
    {s : SlepcEigenSolver} {o : List Float × List Float}
    {r : SlepcEigenSolver}
    (h : GetEigenvectorPair i br bc s = some (o, r)) :
    r.clcustom = s.clcustom ∧ r.eng = s.eng ∧ r.operatorset = s.operatorset
    ∧ (∃ p, s.eng.results[i]? = some p
        ∧ o = (placeWrite br p.xr, placeWrite bc p.xc))
    ∧ (∃ v1, r.VR = some v1 ∧ v1.bound = false
        ∧ ((∃ v, s.VR = some v ∧ v1.srcA = v.srcA)
           ∨ s.eng.opA = some v1.srcA))
    ∧ (∃ v2, r.VC = some v2 ∧ v2.bound = false
        ∧ ((∃ v, s.VC = some v ∧ v2.srcA = v.srcA)
           ∨ s.eng.opA = some v2.srcA)) := by
  cases hVR : s.VR with
  | some v1 =>
    cases hVC : s.VC with
    | some v2 =>
      simp only [GetEigenvectorPair, ensureVRVC, hVR, hVC] at h
      cases hres : s.eng.results[i]? with
      | none => rw [hres] at h; cases h
      | some p =>
        rw [hres] at h
        obtain ⟨rfl, rfl⟩ := Prod.mk.injEq .. ▸ Option.some.inj h
        exact ⟨rfl, rfl, rfl, ⟨p, rfl, rfl⟩,
               ⟨_, rfl, rfl, Or.inl ⟨v1, rfl, rfl⟩⟩,
               ⟨_, rfl, rfl, Or.inl ⟨v2, rfl, rfl⟩⟩⟩
    | none =>
      cases hopA : s.eng.opA with
      | none =>
        simp only [GetEigenvectorPair, ensureVRVC, hVR, hVC, hopA] at h
        exact Option.noConfusion h
      | some pA =>
        simp only [GetEigenvectorPair, ensureVRVC, hVR, hVC, hopA] at h
        cases hres : s.eng.results[i]? with
        | none => rw [hres] at h; cases h
        | some p =>
          rw [hres] at h
          obtain ⟨rfl, rfl⟩ := Prod.mk.injEq .. ▸ Option.some.inj h
          exact ⟨rfl, rfl, rfl, ⟨p, rfl, rfl⟩,
                 ⟨_, rfl, rfl, Or.inl ⟨v1, rfl, rfl⟩⟩,
                 ⟨_, rfl, rfl, Or.inr rfl⟩⟩
  | none =>
    cases hopA : s.eng.opA with
    | none =>
      cases hVC : s.VC <;>
        [skip; skip] <;>
        · simp only [GetEigenvectorPair, ensureVRVC, hVR, hVC, hopA] at h
          exact Option.noConfusion h
    | some pA =>
      cases hVC : s.VC with
      | some v2 =>
        simp only [GetEigenvectorPair, ensureVRVC, hVR, hVC, hopA] at h
        cases hres : s.eng.results[i]? with
        | none => rw [hres] at h; cases h
        | some p =>
          rw [hres] at h
          obtain ⟨rfl, rfl⟩ := Prod.mk.injEq .. ▸ Option.some.inj h
          exact ⟨rfl, rfl, rfl, ⟨p, rfl, rfl⟩,
                 ⟨_, rfl, rfl, Or.inr rfl⟩,
                 ⟨_, rfl, rfl, Or.inl ⟨v2, rfl, rfl⟩⟩⟩
      | none =>
        simp only [GetEigenvectorPair, ensureVRVC, hVR, hVC, hopA] at h
        cases hres : s.eng.results[i]? with
        | none => rw [hres] at h; cases h
        | some p =>
          rw [hres] at h
          obtain ⟨rfl, rfl⟩ := Prod.mk.injEq .. ▸ Option.some.inj h
          exact ⟨rfl, rfl, rfl, ⟨p, rfl, rfl⟩,
                 ⟨_, rfl, rfl, Or.inr rfl⟩,
                 ⟨_, rfl, rfl, Or.inr rfl⟩⟩

/-! ### Trace invariants -/

/-- The latch invariant: the external-option merge has run at most once,
and not at all while the latch is still false. -/
def latchInv (s : SlepcEigenSolver) : Prop :=
  s.eng.fromOptionsCount ≤ 1
  ∧ (s.clcustom = false → s.eng.fromOptionsCount = 0)

/-- The view invariant: every live eigenvector view derives its layout
from the currently registered primary operator, and before any operator
is registered there are no views and no registered operator. -/
def viewsInv (s : SlepcEigenSolver) : Prop :=
  (∀ v, s.VR = some v → s.eng.opA = some v.srcA)
  ∧ (∀ v, s.VC = some v → s.eng.opA = some v.srcA)
  ∧ (s.operatorset = false →
      s.VR = none ∧ s.VC = none ∧ s.eng.opA = none)

lemma viewsInv_new (w : Bool) : viewsInv (SlepcEigenSolver.new w) := by
  refine ⟨?_, ?_, ?_⟩ <;> simp [SlepcEigenSolver.new]

lemma latchInv_new (w : Bool) : latchInv (SlepcEigenSolver.new w) :=
  ⟨Nat.zero_le 1, fun _ => rfl⟩

lemma viewsInv_of_frame {s r : SlepcEigenSolver}
    (hVR : r.VR = s.VR) (hVC : r.VC = s.VC)
    (hopA : r.eng.opA = s.eng.opA) (hos : r.operatorset = s.operatorset)
    (hi : viewsInv s) : viewsInv r := by
  refine ⟨fun v hv => ?_, fun v hv => ?_, fun hf => ?_⟩
  · rw [hopA]; exact hi.1 v (hVR ▸ hv)
  · rw [hopA]; exact hi.2.1 v (hVC ▸ hv)
  · rw [hVR, hVC, hopA]; exact hi.2.2 (hos ▸ hf)

/-- Effect of one `step` on the latch and the merge counter: either both
are untouched, or the latch ends true with the counter untouched, or the
latch flips from false to true with the counter incremented once. -/
lemma step_latch {c : EngineState → List EigPair} {o : Op}
    {s s' : SlepcEigenSolver} (h : step c o s = some s') :
    (s'.clcustom = s.clcustom
      ∧ s'.eng.fromOptionsCount = s.eng.fromOptionsCount)
    ∨ (s'.clcustom = true
      ∧ s'.eng.fromOptionsCount = s.eng.fromOptionsCount)
    ∨ (s'.clcustom = true ∧ s.clcustom = false
      ∧ s'.eng.fromOptionsCount = s.eng.fromOptionsCount + 1) := by
  cases o with
  | setOp a =>
    obtain ⟨h1, h2, -⟩ := SetOperator_state h
    exact Or.inl ⟨h1, h2⟩
  | setOps a b =>
    obtain ⟨h1, h2, -⟩ := SetOperators_state h
    exact Or.inl ⟨h1, h2⟩
  | setTol x =>
    obtain rfl := Option.some.inj h; exact Or.inl ⟨rfl, rfl⟩
  | setMaxIter n =>
    obtain rfl := Option.some.inj h; exact Or.inl ⟨rfl, rfl⟩
  | setNumModes n =>
    obtain rfl := Option.some.inj h; exact Or.inl ⟨rfl, rfl⟩
  | setWhich w =>
    rcases w with w | z
    · cases w <;> exact Or.inl ⟨(Option.some.inj h) ▸ rfl,
        (Option.some.inj h) ▸ rfl⟩
    · exact Option.noConfusion h
  | setTarget x =>
    obtain rfl := Option.some.inj h; exact Or.inl ⟨rfl, rfl⟩
  | setST t =>
    rcases t with t | z
    · cases t <;> exact Or.inl ⟨(Option.some.inj h) ▸ rfl,
        (Option.some.inj h) ▸ rfl⟩
    · exact Option.noConfusion h
  | customize b =>
    obtain rfl := Option.some.inj h
    cases hc : s.clcustom
    · cases b
      · exact Or.inr (Or.inl ⟨Customize_clcustom _ _, by
          rw [Customize_count]; simp [hc]⟩)
      · exact Or.inr (Or.inr ⟨Customize_clcustom _ _, rfl, by
          rw [Customize_count]; simp [hc]⟩)
    · exact Or.inr (Or.inl ⟨Customize_clcustom _ _, by
        rw [Customize_count]; simp [hc]⟩)
  | solve =>
    obtain rfl := Option.some.inj h
    cases hc : s.clcustom
    · exact Or.inr (Or.inr ⟨Solve_clcustom _ _, rfl, by
        rw [Solve_count]; simp [hc]⟩)
    · exact Or.inr (Or.inl ⟨Solve_clcustom _ _, by
        rw [Solve_count]; simp [hc]⟩)
  | getEigval i =>
    simp only [step] at h
    cases hg : GetEigenvalue1 i s with
    | none => rw [hg] at h; exact Option.noConfusion h
    | some x =>
      rw [hg] at h
      obtain rfl := Option.some.inj h; exact Or.inl ⟨rfl, rfl⟩
  | getEigvalPair i =>
    simp only [step] at h
    cases hg : GetEigenvalue2 i s with
    | none => rw [hg] at h; exact Option.noConfusion h
    | some x =>
      rw [hg] at h
      obtain rfl := Option.some.inj h; exact Or.inl ⟨rfl, rfl⟩
  | getEigvec i buf =>
    simp only [step] at h
    cases hg : GetEigenvector i buf s with
    | none => rw [hg] at h; exact Option.noConfusion h
    | some pr =>
      obtain ⟨o1, r⟩ := pr
      rw [hg] at h
      obtain rfl : r = s' := Option.some.inj h
      obtain ⟨h1, h2, -⟩ := GetEigenvector_spec hg
      exact Or.inl ⟨h1, by rw [h2]⟩
  | getEigvecPair i br bc =>
    simp only [step] at h
    cases hg : GetEigenvectorPair i br bc s with
    | none => rw [hg] at h; exact Option.noConfusion h
    | some pr =>
      obtain ⟨o1, r⟩ := pr
      rw [hg] at h
      obtain rfl : r = s' := Option.some.inj h
      obtain ⟨h1, h2, -⟩ := GetEigenvectorPair_spec hg
      exact Or.inl ⟨h1, by rw [h2]⟩
  | getNumConv =>
    obtain rfl := Option.some.inj h; exact Or.inl ⟨rfl, rfl⟩

lemma step_latchInv {c : EngineState → List EigPair} {o : Op}
    {s s' : SlepcEigenSolver} (h : step c o s = some s')
    (hi : latchInv s) : latchInv s' := by
  rcases step_latch h with ⟨h1, h2⟩ | ⟨h1, h2⟩ | ⟨h1, h2, h3⟩
  · exact ⟨h2 ▸ hi.1, fun hf => h2.trans (hi.2 (h1 ▸ hf))⟩
  · exact ⟨h2 ▸ hi.1, fun hf => absurd (hf ▸ h1) (by simp)⟩
  · refine ⟨?_, fun hf => absurd (hf ▸ h1) (by simp)⟩
    rw [h3, hi.2 h2]

lemma step_clcustom_mono {c : EngineState → List EigPair} {o : Op}
    {s s' : SlepcEigenSolver} (h : step c o s = some s')
    (hc : s.clcustom = true) : s'.clcustom = true := by
  rcases step_latch h with ⟨h1, -⟩ | ⟨h1, -⟩ | ⟨h1, -, -⟩
  · rw [h1, hc]
  · exact h1
  · exact h1

lemma step_viewsInv {c : EngineState → List EigPair} {o : Op}
    {s s' : SlepcEigenSolver} (h : step c o s = some s')
    (hi : viewsInv s) : viewsInv s' := by
  cases o with
  | setOp a =>
    obtain ⟨-, -, hos, ⟨pA, hopA⟩, hVR, hVC⟩ := SetOperator_state h
    refine ⟨fun v hv => ?_, fun v hv => ?_, fun hf => ?_⟩
    · rw [hVR] at hv
      cases hset : s.operatorset
      · rw [hset] at hv; simp at hv
        exact absurd (hv ▸ (hi.2.2 hset).1) (by simp)
      · rw [hset] at hv; simp at hv
    · rw [hVC] at hv
      cases hset : s.operatorset
      · rw [hset] at hv; simp at hv
        exact absurd (hv ▸ (hi.2.2 hset).2.1) (by simp)
      · rw [hset] at hv; simp at hv
    · rw [hos] at hf; exact Bool.noConfusion hf
  | setOps a b =>
    obtain ⟨-, -, hos, ⟨pA, hopA⟩, hVR, hVC⟩ := SetOperators_state h
    refine ⟨fun v hv => ?_, fun v hv => ?_, fun hf => ?_⟩
    · rw [hVR] at hv
      cases hset : s.operatorset
      · rw [hset] at hv; simp at hv
        exact absurd (hv ▸ (hi.2.2 hset).1) (by simp)
      · rw [hset] at hv; simp at hv
    · rw [hVC] at hv
      cases hset : s.operatorset
      · rw [hset] at hv; simp at hv
        exact absurd (hv ▸ (hi.2.2 hset).2.1) (by simp)
      · rw [hset] at hv; simp at hv
    · rw [hos] at hf; exact Bool.noConfusion hf
  | setTol x =>
    obtain rfl := Option.some.inj h
    exact viewsInv_of_frame rfl rfl rfl rfl hi
  | setMaxIter n =>
    obtain rfl := Option.some.inj h
    exact viewsInv_of_frame rfl rfl rfl rfl hi
  | setNumModes n =>
    obtain rfl := Option.some.inj h
    exact viewsInv_of_frame rfl rfl rfl rfl hi
  | setWhich w =>
    rcases w with w | z
    · cases w <;> exact viewsInv_of_frame
        ((Option.some.inj h) ▸ rfl) ((Option.some.inj h) ▸ rfl)
        ((Option.some.inj h) ▸ rfl) ((Option.some.inj h) ▸ rfl) hi
    · exact Option.noConfusion h
  | setTarget x =>
    obtain rfl := Option.some.inj h
    exact viewsInv_of_frame rfl rfl rfl rfl hi
  | setST t =>
    rcases t with t | z
    · cases t <;> exact viewsInv_of_frame
        ((Option.some.inj h) ▸ rfl) ((Option.some.inj h) ▸ rfl)
        ((Option.some.inj h) ▸ rfl) ((Option.some.inj h) ▸ rfl) hi
    · exact Option.noConfusion h
  | customize b =>
    obtain rfl := Option.some.inj h
    obtain ⟨f1, f2, f3, f4, -⟩ := Customize_frame b s
    exact viewsInv_of_frame f1 f2 f4 f3 hi
  | solve =>
    obtain rfl := Option.some.inj h
    obtain ⟨f1, f2, f3, f4, -⟩ := Solve_frame c s
    exact viewsInv_of_frame f1 f2 f4 f3 hi
  | getEigval i =>
    simp only [step] at h
    cases hg : GetEigenvalue1 i s with
    | none => rw [hg] at h; exact Option.noConfusion h
    | some x =>
      rw [hg] at h
      obtain rfl := Option.some.inj h; exact hi
  | getEigvalPair i =>
    simp only [step] at h
    cases hg : GetEigenvalue2 i s with
    | none => rw [hg] at h; exact Option.noConfusion h
    | some x =>
      rw [hg] at h
      obtain rfl := Option.some.inj h; exact hi
  | getEigvec i buf =>
    simp only [step] at h
    cases hg : GetEigenvector i buf s with
    | none => rw [hg] at h; exact Option.noConfusion h
    | some pr =>
      obtain ⟨o1, r⟩ := pr
      rw [hg] at h
      obtain rfl : r = s' := Option.some.inj h
      obtain ⟨-, heng, hos, hVC, -, v1, hv1, -, hsrc⟩ :=
        GetEigenvector_spec hg
      refine ⟨fun v hv => ?_, fun v hv => ?_, fun hf => ?_⟩
      · rw [hv1] at hv
        obtain rfl := Option.some.inj hv
        rw [heng]
        rcases hsrc with ⟨v0, hv0, hsa⟩ | hdirect
        · rw [hsa]; exact hi.1 v0 hv0
        · exact hdirect
      · rw [heng]; exact hi.2.1 v (hVC ▸ hv)
      · exfalso
        have hsf := hos ▸ hf
        rcases hsrc with ⟨v0, hv0, -⟩ | hdirect
        · exact absurd ((hi.2.2 hsf).1 ▸ hv0) (by simp)
        · exact absurd ((hi.2.2 hsf).2.2 ▸ hdirect) (by simp)
  | getEigvecPair i br bc =>
    simp only [step] at h
    cases hg : GetEigenvectorPair i br bc s with
    | none => rw [hg] at h; exact Option.noConfusion h
    | some pr =>
      obtain ⟨o1, r⟩ := pr
      rw [hg] at h
      obtain rfl : r = s' := Option.some.inj h
      obtain ⟨-, heng, hos, -, ⟨v1, hv1, -, hsrc1⟩, ⟨v2, hv2, -, hsrc2⟩⟩ :=
        GetEigenvectorPair_spec hg
      refine ⟨fun v hv => ?_, fun v hv => ?_, fun hf => ?_⟩
      · rw [hv1] at hv
        obtain rfl := Option.some.inj hv
        rw [heng]
        rcases hsrc1 with ⟨v0, hv0, hsa⟩ | hdirect
        · rw [hsa]; exact hi.1 v0 hv0
        · exact hdirect
      · rw [hv2] at hv
        obtain rfl := Option.some.inj hv
        rw [heng]
        rcases hsrc2 with ⟨v0, hv0, hsa⟩ | hdirect
        · rw [hsa]; exact hi.2.1 v0 hv0
        · exact hdirect
      · exfalso
        have hsf := hos ▸ hf
        rcases hsrc1 with ⟨v0, hv0, -⟩ | hdirect
        · exact absurd ((hi.2.2 hsf).1 ▸ hv0) (by simp)
        · exact absurd ((hi.2.2 hsf).2.2 ▸ hdirect) (by simp)
  | getNumConv =>
    obtain rfl := Option.some.inj h; exact hi

/-- Any invariant preserved by `step` is preserved by `run`. -/
lemma run_inv {c : EngineState → List EigPair}
    (P : SlepcEigenSolver → Prop)
    (hstep : ∀ {o s s'}, step c o s = some s' → P s → P s') :
    ∀ (ops : List Op) (s s' : SlepcEigenSolver),
      P s → run c ops s = some s' → P s'
  | [] => by
    intro s s' hp h
    obtain rfl := Option.some.inj h
    exact hp
  | o :: os => by
    intro s s' hp h
    rw [run] at h
    cases hs : step c o s with
    | none => rw [hs] at h; exact Option.noConfusion h
    | some s1 =>
      rw [hs] at h
      exact run_inv P hstep os s1 s' (hstep hs hp) h

lemma run_latchInv {c : EngineState → List EigPair} (ops : List Op)
    {s s' : SlepcEigenSolver} (hp : latchInv s)
    (h : run c ops s = some s') : latchInv s' :=
  run_inv latchInv (fun hs hp0 => step_latchInv hs hp0) ops s s' hp h

lemma run_viewsInv {c : EngineState → List EigPair} (ops : List Op)
    {s s' : SlepcEigenSolver} (hp : viewsInv s)
    (h : run c ops s = some s') : viewsInv s' :=
  run_inv viewsInv (fun hs hp0 => step_viewsInv hs hp0) ops s s' hp h

/-! ### Concrete demonstration fixtures -/

/-- A fixed eigenpair returned by the demonstration engine. -/
def demoPair : EigPair :=
  { lr := 3.0, li := 0.0, xr := [5.0], xc := [6.0] }

/-- A demonstration engine: every solve converges to one eigenpair. -/
def demoCompute : EngineState → List EigPair := fun _ => [demoPair]

def demoNew : SlepcEigenSolver := SlepcEigenSolver.new false

/-- A canonical (`PetscParMatrix`) operator used in demonstrations. -/
def demoOpMat : OperKind := OperKind.petscMat 7 3

def demoConfigured : SlepcEigenSolver :=
  (SetOperator demoOpMat demoNew).getD demoNew

def demoSolved : SlepcEigenSolver := Solve demoCompute demoConfigured

def demoRetrieved : SlepcEigenSolver :=
  ((GetEigenvector 0 [0.0] demoSolved).getD ([], demoSolved)).2

def demoDestroyed : SlepcEigenSolver := destruct demoRetrieved

example : demoSolved.eng.results[0]? = some demoPair := rfl

example :
    demoRetrieved.VR =
      some { rid := 1, srcA := Handle.borrowed 7 3, bound := false } := rfl

/-! ### Claim theorems -/

/-- C1 (code evaluation): on any non-`PetscParMatrix` operator the
adapter synthesizes a new canonical handle (`delete_pA = true`), but by
the end of `SetOperator` / `SetOperators` the number of releases of
synthesized matrix handles is 0, not 1: the trailing
`if (delete_pA) {delete_pA;}` only evaluates the flag, so the
synthesized handle is leaked, contradicting the claim that it is
released exactly once before the call returns. -/
theorem C1_code_eval : ∀ (w : Bool) (i n j k : Nat),
    ((SetOperator (OperKind.hypreMat i n) (SlepcEigenSolver.new w)).map
        fun r => (r.mem.matAllocCount, r.mem.matFreeCount)) = some (1, 0)
    ∧ ((SetOperator (OperKind.genericOp i n) (SlepcEigenSolver.new w)).map
        fun r => (r.mem.matAllocCount, r.mem.matFreeCount)) = some (1, 0)
    ∧ ((SetOperators (OperKind.hypreMat i n) (OperKind.genericOp j k)
          (SlepcEigenSolver.new w)).map
        fun r => (r.mem.matAllocCount, r.mem.matFreeCount)) = some (2, 0) := by
  intro w i n j k
  exact ⟨rfl, rfl, rfl⟩

/-- C2 (code evaluation): after construct, `SetOperator`, `Solve` and one
`GetEigenvector` (which lazily allocates the view `VR`, ledger id 1),
running the destructor releases the EPS context (id 0) but leaves the
still-cached view `VR` both referenced and live: the destructor never
deletes `VR`/`VC`, contradicting the claim that views not already
discarded are released no later than in the destructor. -/
theorem C2_code_eval :
    demoRetrieved.VR =
      some { rid := 1, srcA := Handle.borrowed 7 3, bound := false }
    ∧ demoDestroyed.VR = demoRetrieved.VR
    ∧ demoDestroyed.mem.live demoNew.epsRid = false
    ∧ demoDestroyed.mem.live 1 = true :=
  ⟨rfl, rfl, rfl, rfl⟩

/-- C6: an operator that is already a `PetscParMatrix` is handed to the
engine unmodified (`borrowed`) with `delete_pA = false`; the adapter
leaves the ledger untouched, `SetOperator` performs no allocation at
all, and — in the absence of stale views to discard — no release of any
kind. -/
theorem C6_canonical :
    ∀ (i n : Nat) (w : Bool) (m : Mem) (s : SlepcEigenSolver),
    adaptToPetsc w (OperKind.petscMat i n) m =
      (some (Handle.borrowed i n), false, m)
    ∧ ((SetOperator (OperKind.petscMat i n) s).map
        fun r => (r.eng.opA, r.mem.allocs))
      = some (some (Handle.borrowed i n), s.mem.allocs)
    ∧ (s.VR = none → s.VC = none →
        ((SetOperator (OperKind.petscMat i n) s).map fun r => r.mem)
          = some s.mem) := by
  intro i n w m s
  have heq : SetOperator (OperKind.petscMat i n) s =
      some { clearStaleViews s with
             eng := { (clearStaleViews s).eng with
                      opA := some (Handle.borrowed i n), opB := none }
             operatorset := true } := rfl
  refine ⟨rfl, ?_, fun hVR hVC => ?_⟩
  · rw [heq, Option.map_some']
    simp [clearStaleViews_allocs]
  · rw [heq, Option.map_some']
    simp [clearStaleViews_mem_of_no_views s hVR hVC]

theorem C6_canonical_witness :
    ((SetOperator (OperKind.petscMat 9 3) demoSolved).map fun r => r.mem)
      = some demoSolved.mem :=
  (C6_canonical 9 3 false initMem demoSolved).2.2 rfl rfl

/-- C7: `SetTol` and `SetMaxIter` store their value and immediately push
both settings to the engine, so repeating a call with the same value
leaves the entire solver state (including the values pushed to the
engine) identical, and repeated calls with different values are
last-write-wins. -/
theorem C7_idempotent :
    ∀ (x y : Float) (n k : Int) (s : SlepcEigenSolver),
    SetTol x (SetTol x s) = SetTol x s
    ∧ SetMaxIter n (SetMaxIter n s) = SetMaxIter n s
    ∧ SetTol y (SetTol x s) = SetTol y s
    ∧ SetMaxIter k (SetMaxIter n s) = SetMaxIter k s := by
  intro x y n k s
  exact ⟨rfl, rfl, rfl, rfl⟩

/-- C9: for each declared enumerator `SetWhichEigenpairs` and
`SetSpectralTransformation` succeed (the engine is modelled as accepting
every mapped value, matching the claim's assumption), while any
out-of-enumeration argument falls to the `default` branch and aborts. -/
theorem C9_enum_fatal : ∀ (s : SlepcEigenSolver),
    (∀ w, (SetWhichEigenpairs (WhichArg.enumVal w) s).isSome = true)
    ∧ (∀ z, SetWhichEigenpairs (WhichArg.outOfEnum z) s = none)
    ∧ (∀ t, (SetSpectralTransformation (STArg.enumVal t) s).isSome = true)
    ∧ (∀ z, SetSpectralTransformation (STArg.outOfEnum z) s = none) := by
  intro s
  refine ⟨fun w => ?_, fun z => rfl, fun t => ?_, fun z => rfl⟩
  · cases w <;> rfl
  · cases t <;> rfl

/-- C10: the fallback `dynamic_cast<const Operator *>` is a cast to the
parameter's own static type and always succeeds, so the adapter always
produces a handle and the `MFEM_VERIFY(pA, "Unsupported operation!")`
abort branch of `SetOperator` / `SetOperators` is unreachable. -/
theorem C10_no_abort :
    ∀ (w : Bool) (op opB : OperKind) (m : Mem) (s : SlepcEigenSolver),
    dynCastOper op = some op
    ∧ (adaptToPetsc w op m).1.isSome = true
    ∧ (SetOperator op s).isSome = true
    ∧ (SetOperators op opB s).isSome = true := by
  intro w op opB m s
  refine ⟨rfl, ?_, ?_, ?_⟩
  · cases op <;> rfl
  · cases op <;> rfl
  · cases op <;> cases opB <;> rfl

lemma SetOperator_isSome (op : OperKind) (s : SlepcEigenSolver) :
    ∃ r, SetOperator op s = some r := by
  cases op <;> exact ⟨_, rfl⟩

lemma SetOperators_isSome (op opB : OperKind) (s : SlepcEigenSolver) :
    ∃ r, SetOperators op opB s = some r := by
  cases op <;> cases opB <;> exact ⟨_, rfl⟩

/-- C3 (counterexample): in the call sequence `SetOperator; Solve;
SetOperator; Solve` the external-option merge runs once in total, not
again after the operator change, and `SetOperator` called on a solver
whose latch is true leaves the latch true: `SetOperator` never resets
`clcustom`, contrary to the claim. -/
theorem C3_counterexample :
    ((run demoCompute
        [Op.setOp demoOpMat, Op.solve, Op.setOp demoOpMat, Op.solve]
        (SlepcEigenSolver.new false)).map
      fun s => s.eng.fromOptionsCount) = some 1
    ∧ ((SetOperator demoOpMat
          (Customize false (SlepcEigenSolver.new false))).map
        fun r => r.clcustom) = some true :=
  ⟨rfl, rfl⟩

/-- C3 (amended): `SetOperator`/`SetOperators` leave the customization
latch unchanged; consequently the merge `EPSSetFromOptions` is invoked
exactly once across two consecutive `Solve` calls with no intervening
operator change, and it is NOT invoked again after an operator change —
the latch is never reset by operator registration. -/
theorem C3_latch_not_reset :
    ∀ (c : EngineState → List EigPair) (w : Bool) (a b : OperKind),
    ((run c [Op.setOp a, Op.solve, Op.solve] (SlepcEigenSolver.new w)).map
        fun s => s.eng.fromOptionsCount) = some 1
    ∧ ((run c [Op.setOp a, Op.solve, Op.setOp b, Op.solve]
          (SlepcEigenSolver.new w)).map
        fun s => s.eng.fromOptionsCount) = some 1
    ∧ (∀ (op : OperKind) (s : SlepcEigenSolver),
        (SetOperator op s).map (fun r => r.clcustom) = some s.clcustom)
    ∧ (∀ (a2 b2 : OperKind) (s : SlepcEigenSolver),
        (SetOperators a2 b2 s).map (fun r => r.clcustom) = some s.clcustom) := by
  intro c w a b
  obtain ⟨s1, h1⟩ := SetOperator_isSome a (SlepcEigenSolver.new w)
  have st1 := SetOperator_state h1
  have hc1 : s1.clcustom = false := st1.1
  have hn1 : s1.eng.fromOptionsCount = 0 := st1.2.1
  have hcS : (Solve c s1).clcustom = true := Solve_clcustom c s1
  have hnS : (Solve c s1).eng.fromOptionsCount = 1 := by
    rw [Solve_count, hc1, hn1]; simp
  refine ⟨?_, ?_, ?_, ?_⟩
  · simp only [run, step, h1]
    rw [Option.map_some', Solve_count, hcS, hnS]
    simp
  · obtain ⟨s3, h3⟩ := SetOperator_isSome b (Solve c s1)
    have st3 := SetOperator_state h3
    have hc3 : s3.clcustom = true := by rw [st3.1, hcS]
    have hn3 : s3.eng.fromOptionsCount = 1 := by rw [st3.2.1, hnS]
    simp only [run, step, h1, h3]
    rw [Option.map_some', Solve_count, hc3, hn3]
    simp
  · intro op s
    obtain ⟨r, hr⟩ := SetOperator_isSome op s
    rw [hr, Option.map_some', (SetOperator_state hr).1]
  · intro a2 b2 s
    obtain ⟨r, hr⟩ := SetOperators_isSome a2 b2 s
    rw [hr, Option.map_some', (SetOperators_state hr).1]

/-- C4: the customization latch starts false at construction; any
`Customize` call (including `Customize(false)`, which forces the latch
true without merging) leaves it true; no operation ever resets it; while
it is true `Customize` never invokes `EPSSetFromOptions`; and over any
sequence of operations starting from a fresh solver the merge runs at
most once. -/
theorem C4_latch : ∀ (w : Bool),
    (SlepcEigenSolver.new w).clcustom = false
    ∧ (∀ (c : EngineState → List EigPair) (ops : List Op)
         (s' : SlepcEigenSolver),
        run c ops (SlepcEigenSolver.new w) = some s' →
        s'.eng.fromOptionsCount ≤ 1)
    ∧ (∀ (s : SlepcEigenSolver) (b : Bool), s.clcustom = true →
        (Customize b s).clcustom = true
        ∧ (Customize b s).eng.fromOptionsCount = s.eng.fromOptionsCount)
    ∧ (∀ (c : EngineState → List EigPair) (o : Op)
         (s s' : SlepcEigenSolver),
        s.clcustom = true → step c o s = some s' → s'.clcustom = true)
    ∧ (∀ (s : SlepcEigenSolver),
        (Customize false s).clcustom = true
        ∧ (Customize false s).eng.fromOptionsCount
            = s.eng.fromOptionsCount) := by
  intro w
  refine ⟨rfl, ?_, ?_, ?_, ?_⟩
  · intro c ops s' h
    exact (run_latchInv ops (latchInv_new w) h).1
  · intro s b hc
    exact ⟨Customize_clcustom b s, by rw [Customize_count]; simp [hc]⟩
  · intro c o s s' hc h
    exact step_clcustom_mono h hc
  · intro s
    exact ⟨Customize_clcustom false s, by rw [Customize_count]; simp⟩

theorem C4_latch_witness :
    ((run demoCompute [Op.solve, Op.solve]
        (SlepcEigenSolver.new false)).getD
      (SlepcEigenSolver.new false)).eng.fromOptionsCount ≤ 1
    ∧ (Customize true demoSolved).clcustom = true :=
  ⟨(C4_latch false).2.1 demoCompute [Op.solve, Op.solve]
      ((run demoCompute [Op.solve, Op.solve]
          (SlepcEigenSolver.new false)).getD
        (SlepcEigenSolver.new false)) rfl,
   ((C4_latch false).2.2.1 demoSolved true rfl).1⟩

/-- C5: when an operator was already registered, `SetOperator` and
`SetOperators` discard both cached eigenvector views (they return with
`VR = VC = NULL`, the views having been deleted before the new operators
are registered); and along any operation sequence from a fresh solver,
every live view derives its layout from the currently registered primary
operator, so `GetEigenvector` never reuses a view whose layout derives
from a previously registered operator. -/
theorem C5_stale_views :
    (∀ (op : OperKind) (s r : SlepcEigenSolver), s.operatorset = true →
        SetOperator op s = some r → r.VR = none ∧ r.VC = none)
    ∧ (∀ (a b : OperKind) (s r : SlepcEigenSolver), s.operatorset = true →
        SetOperators a b s = some r → r.VR = none ∧ r.VC = none)
    ∧ (∀ (w : Bool) (c : EngineState → List EigPair) (ops : List Op)
         (s' : SlepcEigenSolver),
        run c ops (SlepcEigenSolver.new w) = some s' →
        (∀ v, s'.VR = some v → s'.eng.opA = some v.srcA)
        ∧ (∀ v, s'.VC = some v → s'.eng.opA = some v.srcA)) := by
  refine ⟨?_, ?_, ?_⟩
  · intro op s r hset h
    obtain ⟨-, -, -, -, hVR, hVC⟩ := SetOperator_state h
    rw [hset] at hVR hVC
    simp only [if_true] at hVR hVC
    exact ⟨by simpa using hVR, by simpa using hVC⟩
  · intro a b s r hset h
    obtain ⟨-, -, -, -, hVR, hVC⟩ := SetOperators_state h
    rw [hset] at hVR hVC
    exact ⟨by simpa using hVR, by simpa using hVC⟩
  · intro w c ops s' h
    have hi := run_viewsInv ops (viewsInv_new w) h
    exact ⟨hi.1, hi.2.1⟩

theorem C5_stale_views_witness :
    ((SetOperator (OperKind.petscMat 8 3) demoRetrieved).getD demoNew).VR
      = none
    ∧ demoRetrieved.eng.opA = some (Handle.borrowed 7 3) :=
  ⟨(C5_stale_views.1 (OperKind.petscMat 8 3) demoRetrieved
      ((SetOperator (OperKind.petscMat 8 3) demoRetrieved).getD demoNew)
      rfl rfl).1,
   (C5_stale_views.2.2 false demoCompute
      [Op.setOp demoOpMat, Op.solve, Op.getEigvec 0 [0.0]]
      demoRetrieved rfl).1
     { rid := 1, srcA := Handle.borrowed 7 3, bound := false } rfl⟩

/-- C8: for a converged index, `GetEigenvector` fills any correctly
sized caller buffer with the engine's eigenvector — so two calls with
two different buffers return identical contents — and after each call
the lazily-allocated view is detached (`ResetArray`) before the call
returns, so the view never stays bound to a caller buffer between
calls. -/
theorem C8_detached_views :
    ∀ (i : Nat) (s : SlepcEigenSolver) (b1 b2 : List Float) (p : EigPair),
    s.eng.results[i]? = some p →
    (∃ pA, s.eng.opA = some pA) →
    b1.length = p.xr.length → b2.length = p.xr.length →
    (GetEigenvector i b1 s).isSome = true
    ∧ ∀ o1 s1, GetEigenvector i b1 s = some (o1, s1) →
        o1 = p.xr
        ∧ (∃ v, s1.VR = some v ∧ v.bound = false)
        ∧ (GetEigenvector i b2 s1).isSome = true
        ∧ ∀ o2 s2, GetEigenvector i b2 s1 = some (o2, s2) →
            o2 = o1 ∧ (∃ v, s2.VR = some v ∧ v.bound = false) := by
  intro i s b1 b2 p hres hop h1 h2
  refine ⟨GetEigenvector_isSome (Or.inr hop) ⟨p, hres⟩, ?_⟩
  intro o1 s1 hg1
  obtain ⟨-, heng, -, -, ⟨p', hp', ho1⟩, v1, hv1, hb1, -⟩ :=
    GetEigenvector_spec hg1
  have hpp : p' = p := by
    rw [hres] at hp'; exact (Option.some.inj hp').symm
  have ho1' : o1 = p.xr := by rw [ho1, hpp, placeWrite_eq h1]
  refine ⟨ho1', ⟨v1, hv1, hb1⟩, ?_, ?_⟩
  · refine GetEigenvector_isSome (Or.inl ?_) ⟨p, ?_⟩
    · rw [hv1]; simp
    · rw [heng]; exact hres
  · intro o2 s2 hg2
    obtain ⟨-, -, -, -, ⟨p2, hp2, ho2⟩, v2, hv2, hb2, -⟩ :=
      GetEigenvector_spec hg2
    have hpp2 : p2 = p := by
      rw [heng, hres] at hp2; exact (Option.some.inj hp2).symm
    refine ⟨?_, ⟨v2, hv2, hb2⟩⟩
    rw [ho2, hpp2, placeWrite_eq h2, ho1']

theorem C8_detached_views_witness :
    (GetEigenvector 0 [0.0] demoSolved).isSome = true
    ∧ ((GetEigenvector 0 [0.0] demoSolved).getD ([], demoSolved)).1
        = demoPair.xr := by
  have H := C8_detached_views 0 demoSolved [0.0] [9.0] demoPair rfl
      ⟨Handle.borrowed 7 3, rfl⟩ rfl rfl
  exact ⟨H.1,
    (H.2 ((GetEigenvector 0 [0.0] demoSolved).getD ([], demoSolved)).1
         ((GetEigenvector 0 [0.0] demoSolved).getD ([], demoSolved)).2
         rfl).1⟩

end MfemSlepc
